import Mathlib

/-!
Verification development for the diagram-annotation core of the repository:

* `backend/app/services/annotation_service.py` (`AnnotationService`),
* `backend/app/services/component_detector_service.py` (`ComponentDetectorService`),
* `backend/app/services/vectorization_service.py` (`VectorizationService`).

The Python code is shallowly embedded: pure functions become Lean functions,
machine reals used only for comparisons (`math.sqrt` against integer
thresholds) are rendered by the equivalent exact comparison of squares, Python
floor division `//` is `Int.fdiv`, `int()` truncation is division of a
rational's numerator by its denominator, and the stateful lazy model load is
explicit state passing.  XML documents are modelled as element trees; parse
and serialize (`ET.fromstring` / `ET.tostring`) are boundary-only operations,
so functions that mutate a parsed SVG act on the tree.
-/

namespace PatentFlow

/-! ## Geometry helpers -/

/-- Squared Euclidean distance between two integer pixel positions.
`AnnotationService._distance` computes `math.sqrt((x1-x2)**2 + (y1-y2)**2)`
and is only ever compared against integer thresholds (25, 30); comparing the
squared distance against the squared threshold renders those comparisons
exactly. -/
def distSq (p q : ℤ × ℤ) : ℤ :=
  (p.1 - q.1) * (p.1 - q.1) + (p.2 - q.2) * (p.2 - q.2)

/-! ## Data model -/

/-- A detected component, as consumed by `place_labels_on_svg` and produced by
`ComponentDetectorService`: a dict holding `id`, `bbox = [x, y, w, h]` and
`area` (further detector-only keys such as the mask play no role in the
annotation logic and are omitted). -/
structure Component where
  id : ℤ
  bbox : ℤ × ℤ × ℤ × ℤ
  area : ℚ
  deriving DecidableEq

/-- A placed label, the dict appended to the `labels` list by
`place_labels_on_svg`: `number`, `position`, `component_id`,
`has_leader_line`. -/
structure Label where
  number : ℤ
  position : ℤ × ℤ
  component_id : ℤ
  has_leader_line : Bool
  deriving DecidableEq

/-! ## XML element trees

`xml.etree.ElementTree` elements: a tag, an attribute list, the text before
the first child, the child list, and the tail text that follows the closing
tag.  The default `ET.fromstring` parser drops XML comments, so parsed trees
contain no comment nodes. -/

/-- An element of an `xml.etree.ElementTree` tree. -/
inductive XmlElem : Type where
  | mk (tag : String) (attrs : List (String × String)) (text : Option String)
      (children : List XmlElem) (tail : Option String)

/-- The element's tag. -/
def XmlElem.tag : XmlElem → String
  | .mk t _ _ _ _ => t

/-- The element's attribute list. -/
def XmlElem.attrs : XmlElem → List (String × String)
  | .mk _ a _ _ _ => a

/-- The element's text (before the first child). -/
def XmlElem.text : XmlElem → Option String
  | .mk _ _ tx _ _ => tx

/-- The element's children. -/
def XmlElem.children : XmlElem → List XmlElem
  | .mk _ _ _ cs _ => cs

/-- The element's tail text (after the closing tag). -/
def XmlElem.tail : XmlElem → Option String
  | .mk _ _ _ _ tl => tl

/-! ## AnnotationService -/

/-- `AnnotationService._sort_components_by_importance.importance_score`:
`area - (y*0.3 + x*0.1)/1000` with `(x, y)` the top-left corner of the
bounding box (the code computes this in floating point; the model is exact). -/
def importance_score (c : Component) : ℚ :=
  let x : ℚ := (c.bbox.1 : ℚ)
  let y : ℚ := (c.bbox.2.1 : ℚ)
  c.area - (y * 0.3 + x * 0.1) / 1000

/-- `sorted(components, key=importance_score, reverse=True)`: a stable sort,
descending by importance score.  Python's stable `sorted` with
`reverse=True` orders by key descending keeping the original order of
equal-keyed elements, which is exactly insertion sort ordered by
`importance_score b ≤ importance_score a`. -/
def sortComponentsByImportance (components : List Component) : List Component :=
  List.insertionSort (fun a b => importance_score b ≤ importance_score a) components

/-- `AnnotationService._calculate_center`: `(x + w // 2, y + h // 2)` with
Python floor division. -/
def calculateCenter (bbox : ℤ × ℤ × ℤ × ℤ) : ℤ × ℤ :=
  let (x, y, w, h) := bbox
  (x + Int.fdiv w 2, y + Int.fdiv h 2)

/-- The seven candidate label positions of `_calculate_label_position`, in
source order: right-top, right-middle, left-top, top-center, bottom-center,
right-bottom, left-middle, with `margin = 15`. -/
def labelCandidates (bbox : ℤ × ℤ × ℤ × ℤ) : List (ℤ × ℤ) :=
  let (x, y, w, h) := bbox
  let margin : ℤ := 15
  [ (x + w + margin, y),
    (x + w + margin, y + Int.fdiv h 2),
    (x - margin - 30, y),
    (x + Int.fdiv w 2 - 10, y - margin - 15),
    (x + Int.fdiv w 2 - 10, y + h + margin),
    (x + w + margin, y + h),
    (x - margin - 30, y + Int.fdiv h 2) ]

/-- The bounds test of `_calculate_label_position`: a candidate is skipped
when `pos_x < 10 or pos_x > img_width - 30` or
`pos_y < 15 or pos_y > img_height - 10`. -/
def inBounds (p : ℤ × ℤ) (imgWidth imgHeight : ℤ) : Bool :=
  !(p.1 < 10 || p.1 > imgWidth - 30) && !(p.2 < 15 || p.2 > imgHeight - 10)

/-- `AnnotationService._is_position_clear`: true iff the position is at
Euclidean distance ≥ `min_distance` from every existing position, rendered via
squared distances (`min_label_distance = 25`, squared threshold `625`). -/
def isPositionClear (position : ℤ × ℤ) (existing : List (ℤ × ℤ))
    (minDistSq : ℤ) : Bool :=
  existing.all (fun q => !(distSq position q < minDistSq))

/-- `AnnotationService._calculate_label_position`: return the first candidate
that is within the canvas bounds and clear of every previously placed label;
if none qualifies, fall back to the first candidate `(x + w + 15, y)`
(right-top) regardless of overlap. -/
def calculateLabelPosition (bbox : ℤ × ℤ × ℤ × ℤ) (existing : List (ℤ × ℤ))
    (imageBounds : ℤ × ℤ) : ℤ × ℤ :=
  match (labelCandidates bbox).find?
      (fun p => inBounds p imageBounds.1 imageBounds.2 &&
        isPositionClear p existing 625) with
  | some p => p
  | none => (bbox.1 + bbox.2.2.1 + 15, bbox.2.1)

/-- `AnnotationService._add_label_to_svg`: the `<g class="patent-label">`
group appended to the SVG root — a white circle of radius 12 at the label
position plus the bold label number centred at `(x, y + 5)`. -/
def labelGroup (labelNumber : ℤ) (position : ℤ × ℤ) : XmlElem :=
  let x := position.1
  let y := position.2
  .mk "g" [("class", "patent-label")] none
    [ .mk "circle"
        [("cx", toString x), ("cy", toString y), ("r", "12"),
         ("fill", "white"), ("stroke", "black"), ("stroke-width", "1.5")]
        none [] none,
      .mk "text"
        [("x", toString x), ("y", toString (y + 5)),
         ("font-family", "Arial, sans-serif"), ("font-size", "14"),
         ("font-weight", "bold"), ("fill", "black"),
         ("text-anchor", "middle"), ("dominant-baseline", "middle")]
        (some (toString labelNumber)) [] none ]
    none

/-- Truncation of a rational toward zero, Python `int()` applied to a float
value that the model carries exactly. -/
def ratTrunc (q : ℚ) : ℤ :=
  Int.tdiv q.num (q.den : ℤ)

/-- The endpoint adjustment of `_add_leader_line` before the final `int()`
truncation, given the exact Euclidean length `len` of the segment from
`fromPos` to `toPos` (the code obtains it with `math.sqrt`): the endpoint is
moved toward `fromPos` by the factor `(length - circle_radius - 2) / length`
with `circle_radius = 12`. -/
def leaderAdjustedEndExact (fromPos toPos : ℤ × ℤ) (len : ℚ) : ℚ × ℚ :=
  let dx : ℚ := ((toPos.1 - fromPos.1 : ℤ) : ℚ)
  let dy : ℚ := ((toPos.2 - fromPos.2 : ℤ) : ℚ)
  let factor : ℚ := (len - 12 - 2) / len
  ((fromPos.1 : ℚ) + dx * factor, (fromPos.2 : ℚ) + dy * factor)

/-- The endpoint adjustment of `_add_leader_line`: applied only when
`length > 0` (each coordinate truncated with `int()`), otherwise the endpoint
is returned unchanged. -/
def leaderAdjustedEnd (fromPos toPos : ℤ × ℤ) (len : ℚ) : ℤ × ℤ :=
  if 0 < len then
    (ratTrunc (leaderAdjustedEndExact fromPos toPos len).1,
     ratTrunc (leaderAdjustedEndExact fromPos toPos len).2)
  else toPos

/-- The endpoint adjustment as the specification words it: shortened at the
label end by exactly the label's circle radius (12 px), so that the line
would terminate on the circle's edge.  Stated for comparison with
`leaderAdjustedEnd`, which is translated from the source. -/
def specLeaderAdjustedEnd (fromPos toPos : ℤ × ℤ) (len : ℚ) : ℤ × ℤ :=
  if 0 < len then
    let dx : ℚ := ((toPos.1 - fromPos.1 : ℤ) : ℚ)
    let dy : ℚ := ((toPos.2 - fromPos.2 : ℤ) : ℚ)
    let factor : ℚ := (len - 12) / len
    (ratTrunc ((fromPos.1 : ℚ) + dx * factor),
     ratTrunc ((fromPos.2 : ℚ) + dy * factor))
  else toPos

/-- `AnnotationService._add_leader_line`: a dashed `<line>` from the component
center to the label position; the label-end endpoint is computed with
floating-point arithmetic, abstracted here by the parameter `adjustEnd`
(its exact value on segments of exactly representable length is modelled by
`leaderAdjustedEnd`). -/
def leaderLineElem (adjustEnd : ℤ × ℤ → ℤ × ℤ → ℤ × ℤ)
    (fromPos toPos : ℤ × ℤ) : XmlElem :=
  let e := adjustEnd fromPos toPos
  .mk "line"
    [("x1", toString fromPos.1), ("y1", toString fromPos.2),
     ("x2", toString e.1), ("y2", toString e.2),
     ("stroke", "black"), ("stroke-width", "1"),
     ("stroke-dasharray", "3,3"), ("class", "leader-line")]
    none [] none

/-- One iteration of the `place_labels_on_svg` loop body for one component:
compute the label position, append the label group and (when
`add_leader_lines` holds and the label is farther than 30 px from the
component center, i.e. squared distance `> 900`) the leader line, and record
the label dict. -/
def annotateStep (adjustEnd : ℤ × ℤ → ℤ × ℤ → ℤ × ℤ) (bounds : ℤ × ℤ)
    (labelNumber : ℤ) (addLeaderLines : Bool) (comp : Component)
    (placed : List (ℤ × ℤ)) : List XmlElem × Label :=
  let componentCenter := calculateCenter comp.bbox
  let labelPos := calculateLabelPosition comp.bbox placed bounds
  let hasLeader := addLeaderLines && decide (900 < distSq labelPos componentCenter)
  (labelGroup labelNumber labelPos ::
      (if hasLeader then [leaderLineElem adjustEnd componentCenter labelPos] else []),
   { number := labelNumber, position := labelPos, component_id := comp.id,
     has_leader_line := hasLeader })

/-- The `for i, component in enumerate(sorted_components)` loop of
`place_labels_on_svg`: processes the components in order, numbering the
`i`-th one `start_number + i*increment`, accumulating the elements appended
to the SVG root and the placed positions. -/
def annotateLoop (adjustEnd : ℤ × ℤ → ℤ × ℤ → ℤ × ℤ) (bounds : ℤ × ℤ)
    (startNumber increment : ℤ) (addLeaderLines : Bool) :
    List Component → ℕ → List (ℤ × ℤ) → List XmlElem × List Label
  | [], _, _ => ([], [])
  | comp :: rest, i, placed =>
    let step := annotateStep adjustEnd bounds (startNumber + (i : ℤ) * increment)
      addLeaderLines comp placed
    let restResult := annotateLoop adjustEnd bounds startNumber increment
      addLeaderLines rest (i + 1) (placed ++ [step.2.position])
    (step.1 ++ restResult.1, step.2 :: restResult.2)

/-- `AnnotationService.place_labels_on_svg` after the parse boundary: the
parsed SVG document is its declared `width`/`height` and the list of child
elements of its root; the call sorts the components by importance, places one
label per component (appending the new elements to the root's children), and
returns the extended document together with the list of placed labels. -/
def placeLabelsOnSvg (adjustEnd : ℤ × ℤ → ℤ × ℤ → ℤ × ℤ)
    (width height : ℤ) (docChildren : List XmlElem)
    (components : List Component) (startNumber increment : ℤ)
    (addLeaderLines : Bool) : List XmlElem × List Label :=
  let sortedComponents := sortComponentsByImportance components
  let result := annotateLoop adjustEnd (width, height) startNumber increment
    addLeaderLines sortedComponents 0 []
  (docChildren ++ result.1, result.2)

/-! ## ComponentDetectorService -/

/-- `ComponentDetectorService._classify_component`: shape classification from
the bounding box's `w / h` aspect ratio (Python true division, exact here). -/
def classifyComponent (bbox : ℤ × ℤ × ℤ × ℤ) : String :=
  let (_, _, w, h) := bbox
  if h = 0 then "unknown"
  else
    let ratio : ℚ := (w : ℚ) / (h : ℚ)
    if 0.9 < ratio ∧ ratio < 1.1 then "circular"
    else if ratio > 2.5 then "horizontal"
    else if ratio < 0.4 then "vertical"
    else if ratio > 1.5 then "rectangular_h"
    else if ratio < 0.67 then "rectangular_v"
    else "square"

/-- The strategy actually used by one `detect_components` call. -/
inductive DetectionStrategy : Type where
  | sam2
  | fallback
  deriving DecidableEq

/-- The mutable state of a `ComponentDetectorService` instance relevant to
lazy loading: the `_initialized` flag (`self.model` / `self.mask_generator`
are set exactly when a load attempt succeeded). -/
structure DetectorState where
  isInitialized : Bool
  deriving DecidableEq

/-- `ComponentDetectorService._lazy_load_model`: returns the new state and
the number of load attempts performed by this call (0 or 1).  `loadOk`
abstracts whether the SAM2 import and model construction succeed on this
attempt; on success `_initialized` is set to `True`, while both `except`
branches (ImportError and any other exception) set `_initialized = False`. -/
def lazyLoadModel (s : DetectorState) (loadOk : Bool) : DetectorState × ℕ :=
  if s.isInitialized then (s, 0)
  else ({ isInitialized := loadOk }, 1)

/-- `ComponentDetectorService._detect_with_fallback`: with OpenCV importable
the contour components extracted by the external `cv2` calls are an oracle
input (`some rawComponents`), of which those with `area < min_area` are
skipped; with OpenCV absent (`none`) the `except ImportError` branch returns
the empty list. -/
def detectWithFallback (cv2Components : Option (List Component))
    (minArea : ℚ) : List Component :=
  match cv2Components with
  | some raw => raw.filter (fun c => !(c.area < minArea))
  | none => []

/-- `_detect_with_sam2`: the masks produced by the external SAM2 mask
generator are an oracle input; masks with `area < min_area` are skipped. -/
def detectWithSam2 (samComponents : List Component) (minArea : ℚ) :
    List Component :=
  samComponents.filter (fun c => !(c.area < minArea))

/-- The result of one `detect_components` call: the instance state afterwards,
the strategy used, the returned components and the number of model-load
attempts the call performed. -/
structure DetectResult where
  state : DetectorState
  strategy : DetectionStrategy
  components : List Component
  attempts : ℕ
  deriving DecidableEq

/-- `ComponentDetectorService.detect_components`: lazily (re-)loads the model,
detects with SAM2 when `_initialized and self.mask_generator` holds and with
the fallback otherwise, then sorts the components by area descending (a
stable Python sort) and truncates to `max_components`. -/
def detectComponents (s : DetectorState) (loadOk : Bool)
    (samComponents : List Component) (cv2Components : Option (List Component))
    (minArea : ℚ) (maxComponents : ℕ) : DetectResult :=
  let loaded := lazyLoadModel s loadOk
  let strategy := if loaded.1.isInitialized then DetectionStrategy.sam2
    else DetectionStrategy.fallback
  let comps := if loaded.1.isInitialized then detectWithSam2 samComponents minArea
    else detectWithFallback cv2Components minArea
  let sorted := List.insertionSort (fun a b : Component => b.area ≤ a.area) comps
  { state := loaded.1, strategy := strategy,
    components := sorted.take maxComponents, attempts := loaded.2 }

/-! ## VectorizationService: SVG optimization

`optimize_svg` delegates to the external `scour` library when it is
importable; the repository's own optimizer is the fallback
`_basic_svg_optimization`: parse, drop comments, re-indent, serialize.
`ET.fromstring`'s default parser already drops XML comments, so a parsed
document contains none and the comment-removal loop leaves the tree
unchanged; what remains, on the tree between the parse/serialize boundary,
is the `_indent_xml` pass started at the root with `level = 0`. -/

/-- `"  " * n`. -/
def spacePairs : ℕ → String
  | 0 => ""
  | n + 1 => "  " ++ spacePairs n

/-- The indentation string of `_indent_xml`: `"\n" + "  " * level`. -/
def indentStr (level : ℕ) : String :=
  "\n" ++ spacePairs level

/-- Python `not s or not s.strip()` on an optional string field: the field is
absent, empty, or whitespace-only. -/
def wsOnly : Option String → Bool
  | none => true
  | some s => s.data.all Char.isWhitespace

/-- Replace the element's tail by the given indentation when the tail is
absent or whitespace-only (the post-loop fix-up of `_indent_xml`:
`if not child.tail or not child.tail.strip(): child.tail = indent`). -/
def XmlElem.setWsTail (ind : String) : XmlElem → XmlElem
  | .mk tag attrs text children tail =>
    if wsOnly tail then .mk tag attrs text children (some ind)
    else .mk tag attrs text children tail

/-- Apply `XmlElem.setWsTail ind` to the last element of the list (after the
`for child in elem` loop, `child` is the last child). -/
def fixLastTail (ind : String) : List XmlElem → List XmlElem
  | [] => []
  | [c] => [c.setWsTail ind]
  | c :: c' :: cs => c :: fixLastTail ind (c' :: cs)

mutual

/-- `VectorizationService._indent_xml`: on an element with children, make the
text and the tail the canonical indentation whenever they are absent or
whitespace-only, recurse into the children at `level + 1`, then re-point the
last child's tail at this element's level; on a childless element at a
nonzero level, only the tail is adjusted. -/
def indentXml (level : ℕ) : XmlElem → XmlElem
  | .mk tag attrs text [] tail =>
    if level ≠ 0 && wsOnly tail then
      .mk tag attrs text [] (some (indentStr level))
    else .mk tag attrs text [] tail
  | .mk tag attrs text (c :: cs) tail =>
    let text' := if wsOnly text then some (indentStr level ++ "  ") else text
    let tail' := if wsOnly tail then some (indentStr level) else tail
    .mk tag attrs text'
      (fixLastTail (indentStr level) (indentChildren (level + 1) (c :: cs)))
      tail'

/-- The `for child in elem: self._indent_xml(child, level + 1)` loop. -/
def indentChildren (level : ℕ) : List XmlElem → List XmlElem
  | [] => []
  | c :: cs => indentXml level c :: indentChildren level cs

end

/-- `VectorizationService._basic_svg_optimization` between the parse and
serialize boundary: the comment-removal loop is the identity on a parsed
tree (the parser drops comments), leaving the `_indent_xml` pass at the
root. -/
def basicSvgOptimization (root : XmlElem) : XmlElem :=
  indentXml 0 root

/-! ## Theorems -/

/-- C6: shape classification is a pure function of the bounding box's
width/height aspect ratio: height = 0 gives `unknown`; a ratio strictly
between 0.9 and 1.1 gives `circular`; above 2.5, `horizontal`; below 0.4,
`vertical`; above 1.5 (and not horizontal), `rectangular_h`; below 0.67 (and
not vertical), `rectangular_v`; everything else, `square` — in particular a
100×100 box is circular, a 300×50 box horizontal, and a 20×100 box
vertical.  Each branch is characterised by an exact condition on the ratio
(the chain's earlier tests subsume the later exclusions). -/
theorem classify_component_thresholds (x y w h : ℤ) :
    (classifyComponent (x, y, w, h) = "unknown" ↔ h = 0) ∧
    (classifyComponent (x, y, w, h) = "circular" ↔
      h ≠ 0 ∧ 0.9 < (w : ℚ) / (h : ℚ) ∧ (w : ℚ) / (h : ℚ) < 1.1) ∧
    (classifyComponent (x, y, w, h) = "horizontal" ↔
      h ≠ 0 ∧ 2.5 < (w : ℚ) / (h : ℚ)) ∧
    (classifyComponent (x, y, w, h) = "vertical" ↔
      h ≠ 0 ∧ (w : ℚ) / (h : ℚ) < 0.4) ∧
    (classifyComponent (x, y, w, h) = "rectangular_h" ↔
      h ≠ 0 ∧ 1.5 < (w : ℚ) / (h : ℚ) ∧ (w : ℚ) / (h : ℚ) ≤ 2.5) ∧
    (classifyComponent (x, y, w, h) = "rectangular_v" ↔
      h ≠ 0 ∧ 0.4 ≤ (w : ℚ) / (h : ℚ) ∧ (w : ℚ) / (h : ℚ) < 0.67) ∧
    (classifyComponent (x, y, w, h) = "square" ↔
      h ≠ 0 ∧ ((0.67 ≤ (w : ℚ) / (h : ℚ) ∧ (w : ℚ) / (h : ℚ) ≤ 0.9) ∨
        (1.1 ≤ (w : ℚ) / (h : ℚ) ∧ (w : ℚ) / (h : ℚ) ≤ 1.5))) ∧
    classifyComponent (0, 0, 100, 100) = "circular" ∧
    classifyComponent (0, 0, 300, 50) = "horizontal" ∧
    classifyComponent (0, 0, 20, 100) = "vertical" := by
  refine ⟨?_, ?_, ?_, ?_, ?_, ?_, ?_, by norm_num [classifyComponent],
    by norm_num [classifyComponent], by norm_num [classifyComponent]⟩ <;>
      simp only [classifyComponent] <;> rcases eq_or_ne h 0 with hh | hh
  case _ => simp [hh]
  case _ =>
    rw [if_neg hh]
    split_ifs with h1 h2 h3 h4 h5 <;> simp [hh]
  case _ => simp [hh]
  case _ =>
    rw [if_neg hh]
    split_ifs with h1 h2 h3 h4 h5 <;> simp [hh] <;> push_neg at h1 <;> exact h1
  case _ => simp [hh]
  case _ =>
    rw [if_neg hh]
    split_ifs with h1 h2 h3 h4 h5 <;> simp [hh] <;> push_neg at * <;>
      first
        | exact h2
        | exact h3
        | exact ⟨h4, h2⟩
        | exact ⟨h3, h5⟩
        | (intro ha; linarith [h1.1, h1.2])
        | (intro ha; linarith)
        | (rintro ⟨a, b⟩; linarith [h1.1, h1.2])
        | (rintro ⟨a, b⟩; linarith)
        | (constructor <;> intro ha <;> linarith [h1.1, h1.2])
        | (constructor <;> intro ha <;> linarith)
        | linarith [h1.1, h1.2]
        | linarith
  case _ => simp [hh]
  case _ =>
    rw [if_neg hh]
    split_ifs with h1 h2 h3 h4 h5 <;> simp [hh] <;> push_neg at * <;>
      first
        | exact h2
        | exact h3
        | exact ⟨h4, h2⟩
        | exact ⟨h3, h5⟩
        | (intro ha; linarith [h1.1, h1.2])
        | (intro ha; linarith)
        | (rintro ⟨a, b⟩; linarith [h1.1, h1.2])
        | (rintro ⟨a, b⟩; linarith)
        | (constructor <;> intro ha <;> linarith [h1.1, h1.2])
        | (constructor <;> intro ha <;> linarith)
        | linarith [h1.1, h1.2]
        | linarith
  case _ => simp [hh]
  case _ =>
    rw [if_neg hh]
    split_ifs with h1 h2 h3 h4 h5 <;> simp [hh] <;> push_neg at * <;>
      first
        | exact h2
        | exact h3
        | exact ⟨h4, h2⟩
        | exact ⟨h3, h5⟩
        | (intro ha; linarith [h1.1, h1.2])
        | (intro ha; linarith)
        | (rintro ⟨a, b⟩; linarith [h1.1, h1.2])
        | (rintro ⟨a, b⟩; linarith)
        | (constructor <;> intro ha <;> linarith [h1.1, h1.2])
        | (constructor <;> intro ha <;> linarith)
        | linarith [h1.1, h1.2]
        | linarith
  case _ => simp [hh]
  case _ =>
    rw [if_neg hh]
    split_ifs with h1 h2 h3 h4 h5 <;> simp [hh] <;> push_neg at * <;>
      first
        | exact h2
        | exact h3
        | exact ⟨h4, h2⟩
        | exact ⟨h3, h5⟩
        | (intro ha; linarith [h1.1, h1.2])
        | (intro ha; linarith)
        | (rintro ⟨a, b⟩; linarith [h1.1, h1.2])
        | (rintro ⟨a, b⟩; linarith)
        | (constructor <;> intro ha <;> linarith [h1.1, h1.2])
        | (constructor <;> intro ha <;> linarith)
        | linarith [h1.1, h1.2]
        | linarith
  case _ => simp [hh]
  case _ =>
    rw [if_neg hh]
    split_ifs with h1 h2 h3 h4 h5 <;> simp [hh] <;> push_neg at * <;>
      first
        | (rintro (⟨a, b⟩ | ⟨a, b⟩) <;> linarith [h1.1, h1.2])
        | (rintro (⟨a, b⟩ | ⟨a, b⟩) <;> linarith)
        | (constructor <;> intro ha <;> linarith [h1.1, h1.2])
        | (constructor <;> intro ha <;> linarith)
        | (rcases le_or_lt ((w : ℚ) / (h : ℚ)) 0.9 with hc | hc
           · exact Or.inl ⟨h5, hc⟩
           · exact Or.inr ⟨h1 hc, h4⟩)

/-- C6 witness: the characterisation applied at the concrete 100×100 box. -/
theorem classify_component_thresholds_witness :
    classifyComponent (0, 0, 100, 100) = "circular" :=
  (classify_component_thresholds 0 0 100 100).2.2.2.2.2.2.2.1

/-- C4 counterexample: a failed model-load attempt is not cached.  Starting
from a never-initialized detector (`_initialized = False`), a first
`detect_components` call whose load attempt fails leaves the state unchanged,
and the next call performs a load attempt again (`attempts = 1`, not `0` as
the claim requires); moreover, if that second attempt succeeds, the call uses
the SAM2 strategy, not the fallback. -/
theorem detector_failure_not_cached_counterexample :
    (detectComponents { isInitialized := false } false [] (some []) 100 50).state
        = { isInitialized := false } ∧
    (detectComponents
        (detectComponents { isInitialized := false } false [] (some []) 100 50).state
        false [] (some []) 100 50).attempts = 1 ∧
    (detectComponents
        (detectComponents { isInitialized := false } false [] (some []) 100 50).state
        true [] (some []) 100 50).attempts = 1 ∧
    (detectComponents
        (detectComponents { isInitialized := false } false [] (some []) 100 50).state
        true [] (some []) 100 50).strategy = DetectionStrategy.sam2 := by
  decide

/-- C4 (amended): only a successful load is memoized.  On an uninitialized
instance every `detect_components` call performs exactly one load attempt and
follows that attempt's outcome (SAM2 on success, fallback on failure); once
a load has succeeded, later calls make no further attempts and use SAM2. -/
theorem detector_lazy_load_memoizes_success_only (s : DetectorState)
    (loadOk : Bool) (samComponents : List Component)
    (cv2Components : Option (List Component)) (minArea : ℚ)
    (maxComponents : ℕ) :
    (s.isInitialized = false →
      (detectComponents s loadOk samComponents cv2Components minArea
          maxComponents).attempts = 1 ∧
      (detectComponents s loadOk samComponents cv2Components minArea
          maxComponents).state = { isInitialized := loadOk } ∧
      (detectComponents s loadOk samComponents cv2Components minArea
          maxComponents).strategy =
        (if loadOk then DetectionStrategy.sam2 else DetectionStrategy.fallback)) ∧
    (s.isInitialized = true →
      (detectComponents s loadOk samComponents cv2Components minArea
          maxComponents).attempts = 0 ∧
      (detectComponents s loadOk samComponents cv2Components minArea
          maxComponents).state = s ∧
      (detectComponents s loadOk samComponents cv2Components minArea
          maxComponents).strategy = DetectionStrategy.sam2) := by
  obtain ⟨init⟩ := s
  cases init <;> cases loadOk <;>
    simp [detectComponents, lazyLoadModel]

/-- C4 witness: the amended behaviour at concrete states — an uninitialized
instance attempts a load, an initialized one does not. -/
theorem detector_lazy_load_memoizes_success_only_witness :
    (detectComponents { isInitialized := false } true [] none 100 50).attempts
        = 1 ∧
    (detectComponents { isInitialized := true } true [] none 100 50).attempts
        = 0 :=
  ⟨((detector_lazy_load_memoizes_success_only { isInitialized := false } true
      [] none 100 50).1 rfl).1,
   ((detector_lazy_load_memoizes_success_only { isInitialized := true } true
      [] none 100 50).2 rfl).1⟩

/-- C10: when the primary model is unavailable (the instance is not
initialized and the load attempt fails) and OpenCV is also unavailable,
`detect_components` returns the empty component list, whatever the image's
SAM2-side content would have been. -/
theorem detect_components_no_cv2_empty (s : DetectorState) (loadOk : Bool)
    (samComponents : List Component) (minArea : ℚ) (maxComponents : ℕ)
    (hs : s.isInitialized = false) (hload : loadOk = false) :
    (detectComponents s loadOk samComponents none minArea
        maxComponents).components = [] := by
  obtain ⟨init⟩ := s
  subst hload
  simp_all [detectComponents, lazyLoadModel, detectWithFallback,
    List.insertionSort]

/-- C5 counterexample: the leader line's label-end endpoint is not shortened
by the circle radius (12 px).  For a horizontal leader line from `(0, 0)` to
`(50, 0)` — whose exact length 50 satisfies `distSq = 50²` — the code
(`factor = (length - circle_radius - 2) / length`) yields endpoint `(36, 0)`,
14 px short of the label position and 2 px outside the circle's edge,
whereas shortening by the circle radius as the claim states would yield
`(38, 0)`. -/
theorem leader_line_shortening_counterexample :
    distSq (0, 0) (50, 0) = 50 * 50 ∧
    leaderAdjustedEnd (0, 0) (50, 0) 50 = (36, 0) ∧
    specLeaderAdjustedEnd (0, 0) (50, 0) 50 = (38, 0) ∧
    (36 : ℤ) ≠ 38 := by
  have h1 : leaderAdjustedEndExact (0, 0) (50, 0) 50 = (36, 0) := by
    unfold leaderAdjustedEndExact; norm_num
  refine ⟨by decide, ?_, ?_, by decide⟩
  · rw [leaderAdjustedEnd, if_pos (by norm_num : (0 : ℚ) < 50), h1]
    simp [ratTrunc]
  · rw [specLeaderAdjustedEnd, if_pos (by norm_num : (0 : ℚ) < 50)]
    norm_num [ratTrunc]

/-- C5 (amended): when `add_leader_lines` holds and the label position is
farther than 30 px from the component's bounding-box center (squared
distance `> 900`), the loop body appends a dashed leader line from the
component center to the label position and records `has_leader_line = true`
(false, with no line appended, otherwise); the label-end endpoint is
shortened by the circle radius *plus a 2 px gap* (14 px in total), so the
exact (pre-truncation) endpoint lies at distance 14 px from the label
position — 2 px outside the label circle's edge, not on it. -/
theorem leader_line_amended (adjustEnd : ℤ × ℤ → ℤ × ℤ → ℤ × ℤ)
    (bounds : ℤ × ℤ) (labelNumber : ℤ) (addLeaderLines : Bool)
    (comp : Component) (placed : List (ℤ × ℤ)) (fromPos toPos : ℤ × ℤ)
    (len : ℚ) (hlen : 0 < len)
    (hexact : len * len =
      ((toPos.1 - fromPos.1 : ℤ) : ℚ) * ((toPos.1 - fromPos.1 : ℤ) : ℚ)
        + ((toPos.2 - fromPos.2 : ℤ) : ℚ) * ((toPos.2 - fromPos.2 : ℤ) : ℚ)) :
    ((annotateStep adjustEnd bounds labelNumber addLeaderLines comp
        placed).2.has_leader_line
      = (addLeaderLines && decide (900 < distSq
          (annotateStep adjustEnd bounds labelNumber addLeaderLines comp
            placed).2.position (calculateCenter comp.bbox)))) ∧
    ((annotateStep adjustEnd bounds labelNumber addLeaderLines comp
        placed).2.has_leader_line = true →
      (annotateStep adjustEnd bounds labelNumber addLeaderLines comp placed).1
        = [labelGroup labelNumber (annotateStep adjustEnd bounds labelNumber
              addLeaderLines comp placed).2.position,
           leaderLineElem adjustEnd (calculateCenter comp.bbox)
             (annotateStep adjustEnd bounds labelNumber addLeaderLines comp
               placed).2.position]) ∧
    ((annotateStep adjustEnd bounds labelNumber addLeaderLines comp
        placed).2.has_leader_line = false →
      (annotateStep adjustEnd bounds labelNumber addLeaderLines comp placed).1
        = [labelGroup labelNumber (annotateStep adjustEnd bounds labelNumber
              addLeaderLines comp placed).2.position]) ∧
    (((toPos.1 : ℚ) - (leaderAdjustedEndExact fromPos toPos len).1)
        * ((toPos.1 : ℚ) - (leaderAdjustedEndExact fromPos toPos len).1)
      + ((toPos.2 : ℚ) - (leaderAdjustedEndExact fromPos toPos len).2)
        * ((toPos.2 : ℚ) - (leaderAdjustedEndExact fromPos toPos len).2)
      = 14 * 14) := by
  refine ⟨rfl, ?_, ?_, ?_⟩
  · intro hl
    simp only [annotateStep] at hl ⊢
    rw [hl]
    simp
  · intro hl
    simp only [annotateStep] at hl ⊢
    rw [hl]
    simp
  · have hne : len ≠ 0 := ne_of_gt hlen
    unfold leaderAdjustedEndExact
    push_cast at hexact ⊢
    field_simp
    ring_nf
    ring_nf at hexact
    nlinarith [hexact]

/-- C5 witness: the amended statement applied to a concrete component (label
at the fallback-free position) and the concrete 3-4-5 segment from `(0, 0)`
to `(30, 40)` of exact length 50. -/
theorem leader_line_amended_witness :
    (((30 : ℤ) : ℚ) - (leaderAdjustedEndExact (0, 0) (30, 40) 50).1)
        * (((30 : ℤ) : ℚ) - (leaderAdjustedEndExact (0, 0) (30, 40) 50).1)
      + (((40 : ℤ) : ℚ) - (leaderAdjustedEndExact (0, 0) (30, 40) 50).2)
        * (((40 : ℤ) : ℚ) - (leaderAdjustedEndExact (0, 0) (30, 40) 50).2)
      = 14 * 14 :=
  (leader_line_amended (fun _ p => p) (800, 600) 10 true
    { id := 0, bbox := (0, 0, 10, 10), area := 100 } [] (0, 0) (30, 40) 50
    (by norm_num) (by norm_num)).2.2.2

/-- C10 witness: the empty result at a concrete uninitialized state and a
concrete nonempty SAM2 oracle. -/
theorem detect_components_no_cv2_empty_witness :
    (detectComponents { isInitialized := false } false
        [{ id := 0, bbox := (0, 0, 10, 10), area := 200 }] none 100
        50).components = [] :=
  detect_components_no_cv2_empty { isInitialized := false } false
    [{ id := 0, bbox := (0, 0, 10, 10), area := 200 }] 100 50 rfl rfl

/-! ### Helper lemmas about the annotation loop -/

/-- The annotation loop records one label per processed component. -/
theorem annotateLoop_length_labels (adjustEnd : ℤ × ℤ → ℤ × ℤ → ℤ × ℤ)
    (bounds : ℤ × ℤ) (startNumber increment : ℤ) (addLeaderLines : Bool)
    (comps : List Component) :
    ∀ (i : ℕ) (placed : List (ℤ × ℤ)),
      ((annotateLoop adjustEnd bounds startNumber increment addLeaderLines
        comps i placed).2).length = comps.length := by
  induction comps with
  | nil => intro i placed; rfl
  | cons c cs ih =>
    intro i placed
    simp [annotateLoop, ih]

/-- The labels record the processed components' ids, in processing order. -/
theorem annotateLoop_map_component_id (adjustEnd : ℤ × ℤ → ℤ × ℤ → ℤ × ℤ)
    (bounds : ℤ × ℤ) (startNumber increment : ℤ) (addLeaderLines : Bool)
    (comps : List Component) :
    ∀ (i : ℕ) (placed : List (ℤ × ℤ)),
      ((annotateLoop adjustEnd bounds startNumber increment addLeaderLines
          comps i placed).2).map (fun l => l.component_id)
        = comps.map (fun c => c.id) := by
  induction comps with
  | nil => intro i placed; rfl
  | cons c cs ih =>
    intro i placed
    simp [annotateLoop, annotateStep, ih]

/-- The labels' numbers are the arithmetic progression
`startNumber + (i + j) * increment` along the processing order. -/
theorem annotateLoop_map_number (adjustEnd : ℤ × ℤ → ℤ × ℤ → ℤ × ℤ)
    (bounds : ℤ × ℤ) (startNumber increment : ℤ) (addLeaderLines : Bool)
    (comps : List Component) :
    ∀ (i : ℕ) (placed : List (ℤ × ℤ)),
      ((annotateLoop adjustEnd bounds startNumber increment addLeaderLines
          comps i placed).2).map (fun l => l.number)
        = (List.range comps.length).map
            (fun j => startNumber + ((i + j : ℕ) : ℤ) * increment) := by
  induction comps with
  | nil => intro i placed; rfl
  | cons c cs ih =>
    intro i placed
    simp only [annotateLoop, annotateStep, List.map_cons, List.length_cons,
      List.range_succ_eq_map, List.map_map, List.cons.injEq]
    refine ⟨by push_cast; ring, ?_⟩
    rw [ih]
    apply List.map_congr_left
    intro j _
    simp only [Function.comp_apply]
    push_cast
    ring

/-- The label group element is a `<g class="patent-label">`. -/
theorem labelGroup_tag (n : ℤ) (p : ℤ × ℤ) : (labelGroup n p).tag = "g" := rfl

/-- The label group element carries the `patent-label` class. -/
theorem labelGroup_attrs (n : ℤ) (p : ℤ × ℤ) :
    (labelGroup n p).attrs = [("class", "patent-label")] := rfl

/-- The leader line element is a `<line>`. -/
theorem leaderLineElem_tag (f : ℤ × ℤ → ℤ × ℤ → ℤ × ℤ) (a b : ℤ × ℤ) :
    (leaderLineElem f a b).tag = "line" := rfl

/-- Every element the loop appends is a label group or a leader line; there
is exactly one group per component and one line per label recorded with
`has_leader_line`. -/
theorem annotateLoop_elems (adjustEnd : ℤ × ℤ → ℤ × ℤ → ℤ × ℤ)
    (bounds : ℤ × ℤ) (startNumber increment : ℤ) (addLeaderLines : Bool)
    (comps : List Component) :
    ∀ (i : ℕ) (placed : List (ℤ × ℤ)),
      (∀ e ∈ (annotateLoop adjustEnd bounds startNumber increment
          addLeaderLines comps i placed).1,
        (e.tag = "g" ∧ e.attrs = [("class", "patent-label")]) ∨
          e.tag = "line") ∧
      ((annotateLoop adjustEnd bounds startNumber increment addLeaderLines
          comps i placed).1.countP (fun e => e.tag == "g")
        = comps.length) ∧
      ((annotateLoop adjustEnd bounds startNumber increment addLeaderLines
          comps i placed).1.countP (fun e => e.tag == "line")
        = ((annotateLoop adjustEnd bounds startNumber increment addLeaderLines
            comps i placed).2).countP (fun l => l.has_leader_line)) := by
  induction comps with
  | nil =>
    intro i placed
    refine ⟨?_, rfl, rfl⟩
    intro e he
    simp [annotateLoop] at he
  | cons c cs ih =>
    intro i placed
    obtain ⟨ih1, ih2, ih3⟩ := ih (i + 1)
      (placed ++ [(annotateStep adjustEnd bounds (startNumber + (i : ℤ) * increment)
        addLeaderLines c placed).2.position])
    simp only [annotateLoop, annotateStep] at ih1 ih2 ih3 ⊢
    cases hb : (addLeaderLines && decide (900 < distSq
        (calculateLabelPosition c.bbox placed bounds)
        (calculateCenter c.bbox))) <;>
      simp only [hb, if_true, if_false, Bool.false_eq_true] <;>
      refine ⟨?_, ?_, ?_⟩
    · intro e he
      rcases List.mem_append.mp he with h | h
      · rcases List.mem_cons.mp h with h | h
        · subst h; exact Or.inl ⟨rfl, rfl⟩
        · simp at h
      · exact ih1 e h
    · simp [List.countP_cons, List.countP_append, labelGroup_tag, ih2]
    · simp [List.countP_cons, List.countP_append, labelGroup_tag, ih3, hb]
    · intro e he
      rcases List.mem_append.mp he with h | h
      · rcases List.mem_cons.mp h with h | h
        · subst h; exact Or.inl ⟨rfl, rfl⟩
        · simp at h
          subst h
          exact Or.inr rfl
      · exact ih1 e h
    · simp [List.countP_cons, List.countP_append, labelGroup_tag,
        leaderLineElem_tag, ih2]
    · simp [List.countP_cons, List.countP_append, labelGroup_tag,
        leaderLineElem_tag, ih3, hb]

/-- The importance sort is sorted descending by the importance score. -/
theorem sortComponents_sorted (components : List Component) :
    List.Sorted (fun a b => importance_score b ≤ importance_score a)
      (sortComponentsByImportance components) := by
  haveI : IsTotal Component
      (fun a b => importance_score b ≤ importance_score a) :=
    ⟨fun a b => le_total _ _⟩
  haveI : IsTrans Component
      (fun a b => importance_score b ≤ importance_score a) :=
    ⟨fun a b c hab hbc => le_trans hbc hab⟩
  exact List.sorted_insertionSort _ _

/-- C1: a successful annotation run returns exactly one label per component —
the labels list has the same length as the input components list, and the
`i`-th label records the id of the `i`-th importance-ranked component, the one
it was placed for (the ranked list being a permutation of the input). -/
theorem annotate_one_label_per_component (adjustEnd : ℤ × ℤ → ℤ × ℤ → ℤ × ℤ)
    (width height : ℤ) (docChildren : List XmlElem)
    (components : List Component) (startNumber increment : ℤ)
    (addLeaderLines : Bool) :
    ((placeLabelsOnSvg adjustEnd width height docChildren components
        startNumber increment addLeaderLines).2).length
      = components.length ∧
    ((placeLabelsOnSvg adjustEnd width height docChildren components
        startNumber increment addLeaderLines).2).map (fun l => l.component_id)
      = (sortComponentsByImportance components).map (fun c => c.id) ∧
    (sortComponentsByImportance components).Perm components := by
  refine ⟨?_, ?_, List.perm_insertionSort _ _⟩
  · rw [placeLabelsOnSvg]
    rw [annotateLoop_length_labels]
    exact List.length_insertionSort _ _
  · rw [placeLabelsOnSvg]
    exact annotateLoop_map_component_id _ _ _ _ _ _ 0 []

/-- C2: the components are ordered by the importance score
`area − (0.3·y + 0.1·x)/1000`, descending; the `i`-th component of that
order receives label number `start_number + i·increment` (the `i`-th label
refers to the `i`-th ranked component); and for every `increment ≥ 1` the
label numbers are strictly increasing along that order, hence pairwise
distinct. -/
theorem annotate_numbering_order (adjustEnd : ℤ × ℤ → ℤ × ℤ → ℤ × ℤ)
    (width height : ℤ) (docChildren : List XmlElem)
    (components : List Component) (startNumber increment : ℤ)
    (addLeaderLines : Bool) :
    List.Sorted (fun a b => importance_score b ≤ importance_score a)
      (sortComponentsByImportance components) ∧
    ((placeLabelsOnSvg adjustEnd width height docChildren components
        startNumber increment addLeaderLines).2).map (fun l => l.number)
      = (List.range components.length).map
          (fun j : ℕ => startNumber + (j : ℤ) * increment) ∧
    ((placeLabelsOnSvg adjustEnd width height docChildren components
        startNumber increment addLeaderLines).2).map (fun l => l.component_id)
      = (sortComponentsByImportance components).map (fun c => c.id) ∧
    (1 ≤ increment →
      (((placeLabelsOnSvg adjustEnd width height docChildren components
          startNumber increment addLeaderLines).2).map
        (fun l => l.number)).Pairwise (· < ·)) := by
  have hnum : ((placeLabelsOnSvg adjustEnd width height docChildren components
      startNumber increment addLeaderLines).2).map (fun l => l.number)
        = (List.range components.length).map
            (fun j : ℕ => startNumber + (j : ℤ) * increment) := by
    rw [placeLabelsOnSvg]
    rw [annotateLoop_map_number]
    rw [sortComponentsByImportance, List.length_insertionSort]
    apply List.map_congr_left
    intro j _
    push_cast
    ring
  refine ⟨sortComponents_sorted components, hnum, ?_, ?_⟩
  · rw [placeLabelsOnSvg]
    exact annotateLoop_map_component_id _ _ _ _ _ _ 0 []
  · intro hinc
    rw [hnum, List.pairwise_map]
    refine (List.pairwise_lt_range components.length).imp ?_
    intro a b hab
    have hcast : (a : ℤ) < (b : ℤ) := by exact_mod_cast hab
    have hpos : (0 : ℤ) < increment := by linarith
    exact add_lt_add_left (mul_lt_mul_of_pos_right hcast hpos) _

/-- C2 witness: the numbering at a concrete two-component run with
`start_number = 10`, `increment = 10`. -/
theorem annotate_numbering_order_witness :
    ((placeLabelsOnSvg (fun _ p => p) 800 600 []
        [{ id := 0, bbox := (145, 20, 600, 50), area := 30000 },
         { id := 1, bbox := (750, 10, 10, 4), area := 40 }]
        10 10 false).2).map (fun l => l.number)
      = (List.range 2).map (fun j : ℕ => 10 + (j : ℤ) * 10) ∧
    (((placeLabelsOnSvg (fun _ p => p) 800 600 []
        [{ id := 0, bbox := (145, 20, 600, 50), area := 30000 },
         { id := 1, bbox := (750, 10, 10, 4), area := 40 }]
        10 10 false).2).map (fun l => l.number)).Pairwise (· < ·) :=
  ⟨(annotate_numbering_order (fun _ p => p) 800 600 []
      [{ id := 0, bbox := (145, 20, 600, 50), area := 30000 },
       { id := 1, bbox := (750, 10, 10, 4), area := 40 }] 10 10 false).2.1,
   (annotate_numbering_order (fun _ p => p) 800 600 []
      [{ id := 0, bbox := (145, 20, 600, 50), area := 30000 },
       { id := 1, bbox := (750, 10, 10, 4), area := 40 }] 10 10
      false).2.2.2 (by norm_num)⟩

/-- C8: annotation only extends the document — the output child list is the
input child list followed by the appended elements, each of which is a
`patent-label` group or a `line`; one group is appended per component and
one line per label recorded with a leader line. -/
theorem annotate_extends_document (adjustEnd : ℤ × ℤ → ℤ × ℤ → ℤ × ℤ)
    (width height : ℤ) (docChildren : List XmlElem)
    (components : List Component) (startNumber increment : ℤ)
    (addLeaderLines : Bool) :
    ∃ appended : List XmlElem,
      (placeLabelsOnSvg adjustEnd width height docChildren components
          startNumber increment addLeaderLines).1
        = docChildren ++ appended ∧
      (∀ e ∈ appended,
        (e.tag = "g" ∧ e.attrs = [("class", "patent-label")]) ∨
          e.tag = "line") ∧
      appended.countP (fun e => e.tag == "g") = components.length ∧
      appended.countP (fun e => e.tag == "line")
        = ((placeLabelsOnSvg adjustEnd width height docChildren components
            startNumber increment addLeaderLines).2).countP
            (fun l => l.has_leader_line) := by
  obtain ⟨h1, h2, h3⟩ := annotateLoop_elems adjustEnd (width, height)
    startNumber increment addLeaderLines
    (sortComponentsByImportance components) 0 []
  refine ⟨(annotateLoop adjustEnd (width, height) startNumber increment
    addLeaderLines (sortComponentsByImportance components) 0 []).1,
    rfl, h1, ?_, h3⟩
  rw [h2]
  exact List.length_insertionSort _ _

/-! ### Label-position selection (C3, C9) -/

/-- A successful `List.find?` returns the first element satisfying the
predicate: its index precedes that of every other satisfying element. -/
theorem find?_first_index {α : Type} (p : α → Bool) :
    ∀ (l : List α) (a : α), l.find? p = some a →
      ∃ k : ℕ, ∃ hk : k < l.length, l.get ⟨k, hk⟩ = a ∧ p a = true ∧
        ∀ (j : ℕ) (hj : j < l.length), j < k →
          p (l.get ⟨j, hj⟩) = false := by
  intro l
  induction l with
  | nil => intro a ha; simp at ha
  | cons x xs ih =>
    intro a ha
    cases hpx : p x with
    | true =>
      rw [List.find?_cons_of_pos _ hpx] at ha
      obtain rfl : x = a := by injection ha
      exact ⟨0, by simp, rfl, hpx, fun j hj hjk => absurd hjk (by omega)⟩
    | false =>
      rw [List.find?_cons_of_neg _ (by simp [hpx])] at ha
      obtain ⟨k, hk, hget, hpa, hfirst⟩ := ih a ha
      refine ⟨k + 1, by simpa using Nat.succ_lt_succ hk, by simpa using hget,
        hpa, ?_⟩
      intro j hj hjk
      cases j with
      | zero => simpa using hpx
      | succ j' =>
        have hj' : j' < xs.length := by simpa using hj
        simpa using hfirst j' hj' (by omega)

/-- C3: for each component, the label position is selected by scanning the
seven fixed candidates — right-top, right-middle, left-top, top-center,
bottom-center, right-bottom, left-middle, in that order — and accepting the
first one that lies within the canvas bounds (`10 ≤ x ≤ width − 30`,
`15 ≤ y ≤ height − 10`) and is at squared distance ≥ 625 (25 px) from every
previously placed label; when no candidate passes both tests, the first
candidate (right-top, `(x + w + 15, y)`) is returned regardless, so a
position is produced for every component. -/
theorem label_position_selection (bbox : ℤ × ℤ × ℤ × ℤ)
    (existing : List (ℤ × ℤ)) (imgWidth imgHeight : ℤ) :
    labelCandidates bbox
      = [ (bbox.1 + bbox.2.2.1 + 15, bbox.2.1),
          (bbox.1 + bbox.2.2.1 + 15, bbox.2.1 + Int.fdiv bbox.2.2.2 2),
          (bbox.1 - 45, bbox.2.1),
          (bbox.1 + Int.fdiv bbox.2.2.1 2 - 10, bbox.2.1 - 30),
          (bbox.1 + Int.fdiv bbox.2.2.1 2 - 10, bbox.2.1 + bbox.2.2.2 + 15),
          (bbox.1 + bbox.2.2.1 + 15, bbox.2.1 + bbox.2.2.2),
          (bbox.1 - 45, bbox.2.1 + Int.fdiv bbox.2.2.2 2) ] ∧
    (∀ p : ℤ × ℤ, inBounds p imgWidth imgHeight = true ↔
      10 ≤ p.1 ∧ p.1 ≤ imgWidth - 30 ∧ 15 ≤ p.2 ∧ p.2 ≤ imgHeight - 10) ∧
    (∀ p : ℤ × ℤ, isPositionClear p existing 625 = true ↔
      ∀ q ∈ existing, 625 ≤ distSq p q) ∧
    ((∃ k : ℕ, ∃ hk : k < (labelCandidates bbox).length,
        calculateLabelPosition bbox existing (imgWidth, imgHeight)
          = (labelCandidates bbox).get ⟨k, hk⟩ ∧
        (inBounds ((labelCandidates bbox).get ⟨k, hk⟩) imgWidth imgHeight &&
          isPositionClear ((labelCandidates bbox).get ⟨k, hk⟩) existing 625)
            = true ∧
        ∀ (j : ℕ) (hj : j < (labelCandidates bbox).length), j < k →
          (inBounds ((labelCandidates bbox).get ⟨j, hj⟩) imgWidth imgHeight &&
            isPositionClear ((labelCandidates bbox).get ⟨j, hj⟩) existing 625)
              = false) ∨
      ((∀ c ∈ labelCandidates bbox,
          (inBounds c imgWidth imgHeight && isPositionClear c existing 625)
            = false) ∧
        calculateLabelPosition bbox existing (imgWidth, imgHeight)
          = (bbox.1 + bbox.2.2.1 + 15, bbox.2.1))) := by
  obtain ⟨x, y, w, h⟩ := bbox
  refine ⟨?_, ?_, ?_, ?_⟩
  · simp [labelCandidates]
    omega
  · intro p
    simp [inBounds]
    omega
  · intro p
    simp [isPositionClear, List.all_eq_true, not_lt]
  · cases hfind : (labelCandidates (x, y, w, h)).find?
        (fun p => inBounds p imgWidth imgHeight &&
          isPositionClear p existing 625) with
    | none =>
      refine Or.inr ⟨?_, ?_⟩
      · intro c hc
        have := List.find?_eq_none.mp hfind c hc
        simpa using this
      · simp only [calculateLabelPosition]
        rw [hfind]
    | some a =>
      obtain ⟨k, hk, hget, hpa, hfirst⟩ := find?_first_index _ _ _ hfind
      refine Or.inl ⟨k, hk, ?_, ?_, hfirst⟩
      · simp only [calculateLabelPosition]
        rw [hfind, hget]
      · rw [hget]; exact hpa

/-- C9 counterexample: annotation can place two labels closer than 25 px even
when both components' centers are far apart (squared distance `97189`, far
beyond `74² = 5476` for a 12 px label circle radius, and beyond
`110² = 12100` for a 30 px label width) and both have candidates inside the
canvas bounds.  With components at bbox `(145, 20, 600, 50)` (area 30000)
and `(750, 10, 10, 4)` (area 40) on an 800×600 canvas, the second label's
only in-bounds candidate is blocked by the first label, so placement falls
back to the out-of-bounds right-top candidate `(775, 10)`, at squared
distance 325 < 625 from the first label `(760, 20)`. -/
theorem label_overlap_counterexample :
    12100 < distSq (calculateCenter (145, 20, 600, 50))
      (calculateCenter (750, 10, 10, 4)) ∧
    (∃ c ∈ labelCandidates (145, 20, 600, 50), inBounds c 800 600 = true) ∧
    (∃ c ∈ labelCandidates (750, 10, 10, 4), inBounds c 800 600 = true) ∧
    ((placeLabelsOnSvg (fun _ p => p) 800 600 []
        [{ id := 0, bbox := (145, 20, 600, 50), area := 30000 },
         { id := 1, bbox := (750, 10, 10, 4), area := 40 }] 10 10 false).2).map
        (fun l => l.position) = [(760, 20), (775, 10)] ∧
    distSq (760, 20) (775, 10) < 625 := by
  have hsort : sortComponentsByImportance
      [{ id := 0, bbox := (145, 20, 600, 50), area := 30000 },
       { id := 1, bbox := (750, 10, 10, 4), area := 40 }]
      = [{ id := 0, bbox := (145, 20, 600, 50), area := 30000 },
         { id := 1, bbox := (750, 10, 10, 4), area := 40 }] := by
    norm_num [sortComponentsByImportance, List.insertionSort,
      List.orderedInsert, importance_score]
  refine ⟨by decide, by decide, by decide, ?_, by decide⟩
  simp only [placeLabelsOnSvg]
  rw [hsort]
  decide

/-- C9 (amended): the ≥ 25 px separation between a newly placed label and
every previously placed label is guaranteed exactly when some candidate
passes both the bounds check and the clearance check — i.e. whenever
placement does not fall back; the fallback (taken when every in-bounds
candidate is within 25 px of an earlier label) may land arbitrarily close to
earlier labels, however far apart the component centers are. -/
theorem label_position_no_overlap_amended (bbox : ℤ × ℤ × ℤ × ℤ)
    (existing : List (ℤ × ℤ)) (imgWidth imgHeight : ℤ)
    (hc : ∃ c ∈ labelCandidates bbox,
      (inBounds c imgWidth imgHeight && isPositionClear c existing 625)
        = true) :
    ∀ q ∈ existing,
      625 ≤ distSq (calculateLabelPosition bbox existing
        (imgWidth, imgHeight)) q := by
  obtain ⟨c, hcmem, hcok⟩ := hc
  have hsome : ((labelCandidates bbox).find?
      (fun p => inBounds p imgWidth imgHeight &&
        isPositionClear p existing 625)).isSome :=
    List.find?_isSome.mpr ⟨c, hcmem, hcok⟩
  obtain ⟨a, ha⟩ := Option.isSome_iff_exists.mp hsome
  have hpa := List.find?_some ha
  intro q hq
  have hclear : isPositionClear a existing 625 = true := by
    simp only [Bool.and_eq_true] at hpa
    exact hpa.2
  simp only [isPositionClear, List.all_eq_true] at hclear
  simp only [calculateLabelPosition]
  rw [ha]
  show 625 ≤ distSq a q
  simpa [not_lt] using hclear q hq

/-- C9 witness: the amended guarantee at a concrete component whose right-top
candidate is in bounds and clear of the one existing label. -/
theorem label_position_no_overlap_amended_witness :
    625 ≤ distSq (calculateLabelPosition (0, 100, 10, 10) [(100, 100)]
      (800, 600)) (100, 100) :=
  label_position_no_overlap_amended (0, 100, 10, 10) [(100, 100)] 800 600
    ⟨(25, 100), by decide⟩ (100, 100) (by simp)

/-! ### SVG optimization idempotence (C7) -/

/-- Blocks of two spaces are whitespace-only. -/
theorem spacePairs_ws (n : ℕ) :
    (spacePairs n).data.all Char.isWhitespace = true := by
  induction n with
  | zero => rfl
  | succ n ih =>
    show (("  " ++ spacePairs n).data.all Char.isWhitespace) = true
    rw [String.data_append, List.all_append, ih]
    rfl

/-- The indentation string is whitespace-only. -/
theorem indentStr_ws (level : ℕ) :
    (indentStr level).data.all Char.isWhitespace = true := by
  show (("\n" ++ spacePairs level).data.all Char.isWhitespace) = true
  rw [String.data_append, List.all_append, spacePairs_ws]
  rfl

/-- The indentation string passes the `not s.strip()` test. -/
theorem wsOnly_indentStr (level : ℕ) :
    wsOnly (some (indentStr level)) = true :=
  indentStr_ws level

/-- The text indentation (`indent + "  "`) passes the `not s.strip()` test. -/
theorem wsOnly_indentStr_text (level : ℕ) :
    wsOnly (some (indentStr level ++ "  ")) = true := by
  show ((indentStr level ++ "  ").data.all Char.isWhitespace) = true
  rw [String.data_append, List.all_append, indentStr_ws]
  rfl

/-- The children loop unrolled one step. -/
theorem indentChildren_cons (level : ℕ) (c : XmlElem) (cs : List XmlElem) :
    indentChildren level (c :: cs) = indentXml level c :: indentChildren level cs :=
  rfl

/-- Indenting the children preserves their number. -/
theorem indentChildren_length (level : ℕ) :
    ∀ cs : List XmlElem, (indentChildren level cs).length = cs.length := by
  intro cs
  induction cs with
  | nil => rfl
  | cons c cs ih => simp [indentChildren, ih]

/-- The last-tail fix-up preserves the number of children. -/
theorem fixLastTail_length (ind : String) :
    ∀ cs : List XmlElem, (fixLastTail ind cs).length = cs.length := by
  intro cs
  induction cs with
  | nil => rfl
  | cons c cs ih =>
    cases cs with
    | nil => simp [fixLastTail]
    | cons c' cs' => simpa [fixLastTail] using ih

/-- `_indent_xml` on a childless element. -/
theorem indentXml_nil (level : ℕ) (tg : String) (a : List (String × String))
    (tx : Option String) (tl : Option String) :
    indentXml level (.mk tg a tx [] tl)
      = if level ≠ 0 && wsOnly tl then .mk tg a tx [] (some (indentStr level))
        else .mk tg a tx [] tl := rfl

/-- `_indent_xml` on an element with children. -/
theorem indentXml_cons (level : ℕ) (tg : String) (a : List (String × String))
    (tx : Option String) (c : XmlElem) (cs : List XmlElem) (tl : Option String) :
    indentXml level (.mk tg a tx (c :: cs) tl)
      = .mk tg a (if wsOnly tx then some (indentStr level ++ "  ") else tx)
          (fixLastTail (indentStr level) (indentChildren (level + 1) (c :: cs)))
          (if wsOnly tl then some (indentStr level) else tl) := rfl

/-- `_indent_xml` on an element with a nonempty child list. -/
theorem indentXml_mk_ne_nil (level : ℕ) (tg : String)
    (a : List (String × String)) (tx : Option String) (cs : List XmlElem)
    (tl : Option String) (h : cs ≠ []) :
    indentXml level (.mk tg a tx cs tl)
      = .mk tg a (if wsOnly tx then some (indentStr level ++ "  ") else tx)
          (fixLastTail (indentStr level) (indentChildren (level + 1) cs))
          (if wsOnly tl then some (indentStr level) else tl) := by
  cases cs with
  | nil => exact absurd rfl h
  | cons c cs' => exact indentXml_cons level tg a tx c cs' tl

/-- The last-tail fix-up keeps a nonempty list nonempty. -/
theorem fixLastTail_ne_nil (ind : String) (cs : List XmlElem) (h : cs ≠ []) :
    fixLastTail ind cs ≠ [] := by
  intro hcon
  have := fixLastTail_length ind cs
  rw [hcon] at this
  cases cs with
  | nil => exact h rfl
  | cons c cs' => simp at this

/-- Indenting keeps a nonempty child list nonempty. -/
theorem indentChildren_ne_nil (level : ℕ) (cs : List XmlElem) (h : cs ≠ []) :
    indentChildren level cs ≠ [] := by
  intro hcon
  have := indentChildren_length level cs
  rw [hcon] at this
  cases cs with
  | nil => exact h rfl
  | cons c cs' => simp at this

/-- The text adjustment of `_indent_xml` is idempotent. -/
theorem procText_idem (level : ℕ) (tx : Option String) :
    (if wsOnly (if wsOnly tx then some (indentStr level ++ "  ") else tx) then
        some (indentStr level ++ "  ")
      else if wsOnly tx then some (indentStr level ++ "  ") else tx)
      = (if wsOnly tx then some (indentStr level ++ "  ") else tx) := by
  cases hws : wsOnly tx <;> simp [hws, wsOnly_indentStr_text]

/-- The tail adjustment of `_indent_xml` is idempotent. -/
theorem procTail_idem (level : ℕ) (tl : Option String) :
    (if wsOnly (if wsOnly tl then some (indentStr level) else tl) then
        some (indentStr level)
      else if wsOnly tl then some (indentStr level) else tl)
      = (if wsOnly tl then some (indentStr level) else tl) := by
  cases hws : wsOnly tl <;> simp [hws, wsOnly_indentStr]

mutual

/-- A second `_indent_xml` pass leaves an already indented element
unchanged. -/
theorem indentXml_idem (e : XmlElem) (level : ℕ) :
    indentXml level (indentXml level e) = indentXml level e := by
  obtain ⟨tg, a, tx, cs, tl⟩ := e
  cases cs with
  | nil =>
    by_cases hl : level = 0 <;> cases hws : wsOnly tl <;>
      simp [indentXml_nil, hl, hws, wsOnly_indentStr]
  | cons c cs' =>
    rw [indentXml_cons]
    rw [indentXml_mk_ne_nil _ _ _ _ _ _
      (fixLastTail_ne_nil _ _ (indentChildren_ne_nil _ _ (by simp)))]
    rw [procText_idem, procTail_idem]
    rw [indentChildren_idem (c :: cs') (level + 1) (indentStr level)
      (wsOnly_indentStr level)]
termination_by sizeOf e

/-- A second pass also leaves an indented element unchanged when a parent has
re-pointed its tail at a whitespace indentation between the passes. -/
theorem indentXml_last_idem (e : XmlElem) (level : ℕ) (ind : String)
    (hind : wsOnly (some ind) = true) :
    (indentXml level ((indentXml level e).setWsTail ind)).setWsTail ind
      = (indentXml level e).setWsTail ind := by
  obtain ⟨tg, a, tx, cs, tl⟩ := e
  cases cs with
  | nil =>
    by_cases hl : level = 0 <;> cases hws : wsOnly tl <;>
      simp [indentXml_nil, XmlElem.setWsTail, hl, hws, hind, wsOnly_indentStr]
  | cons c cs' =>
    rw [indentXml_cons]
    have hne : fixLastTail (indentStr level)
        (indentChildren (level + 1) (c :: cs')) ≠ [] :=
      fixLastTail_ne_nil _ _ (indentChildren_ne_nil _ _ (by simp))
    cases hTL : wsOnly (if wsOnly tl then some (indentStr level) else tl) with
    | true =>
      simp only [XmlElem.setWsTail, hTL, if_pos]
      rw [indentXml_mk_ne_nil _ _ _ _ _ _ hne]
      simp only [XmlElem.setWsTail, hind, if_pos]
      rw [procText_idem]
      rw [indentChildren_idem (c :: cs') (level + 1) (indentStr level)
        (wsOnly_indentStr level)]
      simp [wsOnly_indentStr]
    | false =>
      simp only [XmlElem.setWsTail, hTL, if_neg, Bool.false_eq_true,
        not_false_eq_true]
      rw [indentXml_mk_ne_nil _ _ _ _ _ _ hne]
      rw [procText_idem, procTail_idem]
      rw [indentChildren_idem (c :: cs') (level + 1) (indentStr level)
        (wsOnly_indentStr level)]
      simp only [XmlElem.setWsTail, hTL, if_neg, Bool.false_eq_true,
        not_false_eq_true]
termination_by sizeOf e

/-- A second pass over indented-and-tail-fixed children reproduces them. -/
theorem indentChildren_idem (cs : List XmlElem) (level : ℕ) (ind : String)
    (hind : wsOnly (some ind) = true) :
    fixLastTail ind (indentChildren level (fixLastTail ind
        (indentChildren level cs)))
      = fixLastTail ind (indentChildren level cs) := by
  cases cs with
  | nil => rfl
  | cons c cs' =>
    cases cs' with
    | nil =>
      show fixLastTail ind (indentChildren level
          [(indentXml level c).setWsTail ind]) = [(indentXml level c).setWsTail ind]
      show [(indentXml level ((indentXml level c).setWsTail ind)).setWsTail ind]
          = [(indentXml level c).setWsTail ind]
      rw [indentXml_last_idem c level ind hind]
    | cons c'' cs'' =>
      have hne : indentChildren level (fixLastTail ind
          (indentChildren level (c'' :: cs''))) ≠ [] := by
        apply indentChildren_ne_nil
        apply fixLastTail_ne_nil
        apply indentChildren_ne_nil
        simp
      rw [indentChildren_cons]
      show fixLastTail ind (indentChildren level (indentXml level c ::
          fixLastTail ind (indentChildren level (c'' :: cs''))))
        = fixLastTail ind (indentXml level c :: indentChildren level (c'' :: cs''))
      rw [indentChildren_cons]
      obtain ⟨k, ks, hk⟩ : ∃ k ks, indentChildren level (fixLastTail ind
          (indentChildren level (c'' :: cs''))) = k :: ks := by
        cases hkk : indentChildren level (fixLastTail ind
            (indentChildren level (c'' :: cs''))) with
        | nil => exact absurd hkk hne
        | cons k ks => exact ⟨k, ks, rfl⟩
      obtain ⟨m, ms, hm⟩ : ∃ m ms,
          indentChildren level (c'' :: cs'') = m :: ms := by
        cases hmm : indentChildren level (c'' :: cs'') with
        | nil => exact absurd hmm (indentChildren_ne_nil _ _ (by simp))
        | cons m ms => exact ⟨m, ms, rfl⟩
      rw [hk, hm]
      show indentXml level (indentXml level c) ::
          fixLastTail ind (k :: ks)
        = indentXml level c :: fixLastTail ind (m :: ms)
      rw [indentXml_idem c level]
      rw [← hk, ← hm]
      rw [indentChildren_idem (c'' :: cs'') level ind hind]
termination_by sizeOf cs

end

/-- C7: SVG optimization is idempotent.  `optimize_svg`'s in-repository
optimizer `_basic_svg_optimization` re-parses and re-serializes at the
boundary and, on the document tree, removes (nonexistent, since the parser
drops them) comments and runs `_indent_xml` from the root; a second
application returns the first application's output unchanged:
`optimize(optimize(d)) = optimize(d)`. -/
theorem optimize_svg_idempotent (root : XmlElem) :
    basicSvgOptimization (basicSvgOptimization root) = basicSvgOptimization root :=
  indentXml_idem root 0

end PatentFlow
